import Mathlib

/-!
# Verification of the 1C documentation-archive ingestion pipeline

Shallow embedding of the ingestion core of the `1c-syntax-helper-mcp`
repository: the HBK archive decoder (`src/parsers/hbk_parser.py`), the
batch extractor, the streaming chunked pipeline (`full_indexing.py`), the
Elasticsearch indexer (`src/parsers/indexer.py`), the background indexing
manager (`src/infrastructure/background/indexing_manager.py`) and the
retry policies (`src/core/retry.py`).

Byte strings are modelled as `List Nat` (one element per byte), Python
dictionaries as association lists, and calls into external libraries
(`zipfile`, Elasticsearch, `tenacity`'s wait clock) as explicit oracle
parameters.  Fallible operations return `Except`/`Option`.
-/

set_option autoImplicit false

namespace HbkSpec

/-! ### Byte-string primitives

Models of Python `bytes.find` and `bytes.rfind`: the least (respectively
greatest) index `i ≥ start` at which the pattern occurs as a contiguous
subsequence, or `-1` when there is none. -/

/-- `pat` occurs in `data` at index `i` (fully contained). -/
def matchesAt (data pat : List Nat) (i : Nat) : Bool :=
  pat.isPrefixOf (data.drop i)

/-- All indices `i ≥ start` at which `pat` occurs in `data`, ascending. -/
def matchPositionsFrom (data pat : List Nat) (start : Nat) : List Nat :=
  (List.range data.length).filter (fun i => decide (start ≤ i) && matchesAt data pat i)

/-- Python `data.find(pat, start)`. -/
def bytesFind (data pat : List Nat) (start : Nat) : Int :=
  match matchPositionsFrom data pat start with
  | [] => -1
  | i :: _ => (i : Int)

/-- Python `data.rfind(pat, start)`. -/
def bytesRfind (data pat : List Nat) (start : Nat) : Int :=
  match (matchPositionsFrom data pat start).getLast? with
  | none => -1
  | some i => (i : Int)

/-- Python `int.from_bytes(data[i:i+2], 'little')`. -/
def readLE16 (data : List Nat) (i : Nat) : Nat :=
  data.getD i 0 + 256 * data.getD (i + 1) 0

/-- Python slice `data[a:b]`. -/
def slice (data : List Nat) (a b : Nat) : List Nat :=
  (data.take b).drop a

/-! ### HBK archive decoder (src/parsers/hbk_parser.py)

The `zipfile.ZipFile` constructor is external; it is modelled by an
oracle `zipOpen : List Nat → Option (List HBKEntry)` mapping a candidate
byte range to its entry list when the bytes parse as a ZIP archive and
to `none` when `zipfile` would raise `BadZipFile`. -/

/-- `ZIP_SIGNATURE = b'PK'` — what the source scans for as "start of ZIP". -/
def ZIP_SIGNATURE : List Nat := [0x50, 0x4B]

/-- `ZIP_EOCD_SIGNATURE = b'PK\x05\x06'`. -/
def ZIP_EOCD_SIGNATURE : List Nat := [0x50, 0x4B, 0x05, 0x06]

/-- `ZIP_EOCD_MIN_SIZE = 22`. -/
def ZIP_EOCD_MIN_SIZE : Nat := 22

/-- The actual 4-byte ZIP local-file-header signature `PK\x03\x04`
(the spec's name for what the decoder searches; the source searches
`ZIP_SIGNATURE = b'PK'` instead). -/
def LOCAL_FILE_HEADER_SIGNATURE : List Nat := [0x50, 0x4B, 0x03, 0x04]

/-- Modelled from the spec: `ArchiveEntry`/`HBKEntry` (src/models/doc_models.py
is not in the sources) — path, size, directory flag; content omitted here,
it is handled by the extractor model. -/
structure HBKEntry where
  path : String
  size : Nat
  is_dir : Bool
  deriving Repr, DecidableEq

/-- `HBKParser._find_zip_offset`: `data.find(ZIP_SIGNATURE)`. -/
def find_zip_offset (data : List Nat) : Int :=
  bytesFind data ZIP_SIGNATURE 0

/-- `max(zip_start, len(data) - ZIP_EOCD_MIN_SIZE - max_comment_size)` with
`max_comment_size = 65535`.  Python's possibly negative difference is clamped
by the outer `max` exactly as truncated `Nat` subtraction is. -/
def eocd_search_start (data : List Nat) (zip_start : Nat) : Nat :=
  max zip_start (data.length - ZIP_EOCD_MIN_SIZE - 65535)

/-- `HBKParser._find_zip_end`. -/
def find_zip_end (data : List Nat) (zip_start : Nat) : Nat :=
  let eocd := bytesRfind data ZIP_EOCD_SIGNATURE (eocd_search_start data zip_start)
  if eocd < 0 then
    data.length
  else
    let eocd_pos := eocd.toNat
    if eocd_pos + 20 + 2 ≤ data.length then
      eocd_pos + ZIP_EOCD_MIN_SIZE + readLE16 data (eocd_pos + 20)
    else
      eocd_pos + ZIP_EOCD_MIN_SIZE

/-- `HBKParser._find_all_eocd`: every EOCD-signature position at or after
`start`, in ascending order. -/
def find_all_eocd (data : List Nat) (start : Nat) : List Nat :=
  matchPositionsFrom data ZIP_EOCD_SIGNATURE start

/-- Strategy C loop of `HBKParser._try_open_zip`: for each EOCD candidate in
order, if the comment-length field is in bounds, recompute the end offset and
try to open that byte range; first success wins. -/
def try_eocd_candidates (zipOpen : List Nat → Option (List HBKEntry))
    (data : List Nat) (zip_start : Nat) : List Nat → Option (List HBKEntry)
  | [] => none
  | p :: rest =>
    if p + 20 + 2 ≤ data.length then
      match zipOpen (slice data zip_start (p + ZIP_EOCD_MIN_SIZE + readLE16 data (p + 20))) with
      | some zf => some zf
      | none => try_eocd_candidates zipOpen data zip_start rest
    else
      try_eocd_candidates zipOpen data zip_start rest

/-- `HBKParser._try_open_zip`: strategy A (EOCD-bounded slice), then
strategy B (slice to end of file), then strategy C (every EOCD candidate). -/
def try_open_zip (zipOpen : List Nat → Option (List HBKEntry))
    (data : List Nat) (zip_start : Nat) : Option (List HBKEntry) :=
  match zipOpen (slice data zip_start (find_zip_end data zip_start)) with
  | some zf => some zf
  | none =>
    match zipOpen (data.drop zip_start) with
    | some zf => some zf
    | none => try_eocd_candidates zipOpen data zip_start (find_all_eocd data zip_start)

/-- The two `HBKParserError` raises of `HBKParser._open_hbk_as_zip`. -/
inductive HBKParserError
  | noSignature
  | cannotOpen
  deriving Repr, DecidableEq

/-- `HBKParser._open_hbk_as_zip`: find the signature offset, fail with the
"no signature" error when absent, otherwise try the open strategies and fail
with the "cannot open" error when all of them fail. -/
def open_hbk_as_zip (zipOpen : List Nat → Option (List HBKEntry))
    (data : List Nat) : Except HBKParserError (List HBKEntry) :=
  let zs := find_zip_offset data
  if zs < 0 then
    .error .noSignature
  else
    match try_open_zip zipOpen data zs.toNat with
    | some entries => .ok entries
    | none => .error .cannotOpen

/-! ### Batch extractor (`HBKParser.extract_batch_files`)

The open `zipfile.ZipFile` is modelled as an association list from member
name to `Option` content: `none` content stands for a member whose `read`
raises (unreadable); an absent key stands for `KeyError` (missing). -/

/-- One `self._zip_file.read(filename)` call: `some` content on success,
`none` when the member is missing or unreadable. -/
def zf_read (zf : List (String × Option (List Nat))) (filename : String) :
    Option (List Nat) :=
  match zf.lookup filename with
  | some (some c) => some c
  | _ => none

/-- `HBKParser.extract_batch_files`: with no open archive it returns the
empty dict; otherwise each requested member that reads successfully is added
to the result and every failing member is skipped (the source catches
`KeyError` and `Exception` per member and never raises). -/
def extract_batch_files (zip_file : Option (List (String × Option (List Nat))))
    (filenames : List String) : List (String × List Nat) :=
  match zip_file with
  | none => []
  | some zf => filenames.filterMap (fun fn => (zf_read zf fn).map (fun c => (fn, c)))

/-! ### Chunking helper (`StreamingIndexer._chunk_list`, full_indexing.py)

`for i in range(0, len(lst), chunk_size): yield lst[i:i + chunk_size]`.
A zero `chunk_size` raises `ValueError` in Python (`range` step 0); the
model returns `[]` in that case, which no claim exercises. -/

def chunk_list {α : Type} (lst : List α) (chunk_size : Nat) : List (List α) :=
  if chunk_size == 0 || lst.isEmpty then []
  else lst.take chunk_size :: chunk_list (lst.drop chunk_size) chunk_size
termination_by lst.length
decreasing_by
  rename_i h
  simp only [Bool.or_eq_true, beq_iff_eq, List.isEmpty_iff, not_or] at h
  simp only [List.length_drop]
  exact Nat.sub_lt (List.length_pos.mpr h.2) (Nat.pos_of_ne_zero h.1)

/-! ### Documents and the Elasticsearch indexer (src/parsers/indexer.py)

A `Documentation` record is abstracted to its stable id; the per-batch
`bulk` outcome is an oracle `batchOk : Nat → Bool` giving the result of
`_index_batch` for the i-th batch of a run. -/

/-- Modelled from the spec: a `Record`/`Documentation` item, abstracted to
its stable deterministic id (src/models/doc_models.py is not in the
sources; no claim depends on the other fields). -/
structure Doc where
  id : Nat
  deriving Repr, DecidableEq

/-- Sum of the lengths of a list of batches. -/
def sumLens {α : Type} (batches : List (List α)) : Nat :=
  (batches.map List.length).sum

/-- The batch loop of `ElasticsearchIndexer.index_documentation`:
`indexed_count` grows by the batch length on every successful
`_index_batch`, and only then is the progress callback invoked with
`(indexed_count, total_docs)`.  `traceAux total batchOk batches i indexed`
returns the list of `(indexed, total)` pairs passed to the callback for the
remaining `batches`, where `i` is the next batch index and `indexed` the
count accumulated so far. -/
def traceAux (total : Nat) (batchOk : Nat → Bool) :
    List (List Doc) → Nat → Nat → List (Nat × Nat)
  | [], _, _ => []
  | b :: rest, i, indexed =>
    if batchOk i then
      (indexed + b.length, total) :: traceAux total batchOk rest (i + 1) (indexed + b.length)
    else
      traceAux total batchOk rest (i + 1) indexed

/-- Final `indexed_count` after the batch loop. -/
def finalCount (batchOk : Nat → Bool) : List (List Doc) → Nat → Nat → Nat
  | [], _, indexed => indexed
  | b :: rest, i, indexed =>
    if batchOk i then finalCount batchOk rest (i + 1) (indexed + b.length)
    else finalCount batchOk rest (i + 1) indexed

/-- The `(indexed, total)` pairs handed to `progress_callback` during one
`index_documentation(docs)` run: batches are the `batch_size`-sized slices
of the document list (`range(0, total_docs, self.batch_size)`). -/
def progressTrace (docs : List Doc) (batch_size : Nat) (batchOk : Nat → Bool) :
    List (Nat × Nat) :=
  traceAux docs.length batchOk (chunk_list docs batch_size) 0 0

/-- Return value of `index_documentation`: `indexed_count == total_docs`. -/
def index_documentation_result (docs : List Doc) (batch_size : Nat)
    (batchOk : Nat → Bool) : Bool :=
  finalCount batchOk (chunk_list docs batch_size) 0 0 == docs.length

/-! ### Background indexing manager
(src/infrastructure/background/indexing_manager.py) -/

/-- Modelled from the spec: `IndexingStatus` — `state ∈ {IDLE, IN_PROGRESS,
COMPLETED, FAILED}` (src/models/index_status.py is not in the sources). -/
inductive IndexingStatus
  | idle
  | in_progress
  | completed
  | failed
  deriving Repr, DecidableEq

/-- Modelled from the spec: `IndexProgressInfo`/`JobStatus` — status plus
`total_documents`, `indexed_documents`, `start_time`, `end_time`,
`error_message`, `file_path`; counters default to zero (spec §3, §4.6).
Times are abstract tick values supplied by the caller. -/
structure IndexProgressInfo where
  status : IndexingStatus
  total_documents : Nat := 0
  indexed_documents : Nat := 0
  start_time : Option Nat := none
  end_time : Option Nat := none
  error_message : Option String := none
  file_path : Option String := none
  deriving Repr, DecidableEq

/-- An `asyncio.Task` handle, abstracted to whether `task.done()` holds. -/
structure TaskHandle where
  done : Bool
  deriving Repr, DecidableEq

/-- The manager's mutable state: `self._current_task` and
`self._progress_info`. -/
structure ManagerState where
  current_task : Option TaskHandle
  progress_info : IndexProgressInfo
  deriving Repr, DecidableEq

/-- `BackgroundIndexingManager.is_indexing`:
`self._current_task is not None and not self._current_task.done()`. -/
def is_indexing (s : ManagerState) : Bool :=
  match s.current_task with
  | some t => !t.done
  | none => false

/-- `BackgroundIndexingManager.start_indexing`: if `is_indexing()` the call
logs a warning and returns with the state untouched; otherwise it records a
freshly created background task (the spawned `_do_indexing` task is the
abstract handle `newTask`). -/
def start_indexing (s : ManagerState) (newTask : TaskHandle) : ManagerState :=
  if is_indexing s then s
  else { s with current_task := some newTask }

/-- `BackgroundIndexingManager._update_progress`: writes both counters into
the status record (the logging branch does not change state). -/
def update_progress (info : IndexProgressInfo) (indexed total : Nat) :
    IndexProgressInfo :=
  { info with indexed_documents := indexed, total_documents := total }

/-- `BackgroundIndexingManager.get_status`: a snapshot copy of
`self._progress_info` (field-for-field copy under the lock). -/
def get_status (s : ManagerState) : IndexProgressInfo :=
  s.progress_info

/-- The externally observable Elasticsearch operations a job issues. -/
inductive SinkCall
  | deleteIndex
  | createIndex
  | bulkWrite (docs : List Doc)
  | refresh
  deriving Repr, DecidableEq

/-- `BackgroundIndexingManager._do_indexing`.  External effects are oracles:
`file_exists` is `Path(file_path).exists()`, `parse_result` the value of
`parser.parse_file` (`none` models a falsy result, `some docs` the
`documentation` list of the parse), and `reindex_all docs` the outcome of
`ElasticsearchIndexer.reindex_all`: its boolean result, the sink calls it
issued, and the last `indexed` value its progress callback delivered (`0`
when the callback never ran).  `t0`/`t1` are the start/end clock readings.
Returns the final `self._progress_info` and the sink calls issued. -/
def do_indexing (file_exists : Bool) (parse_result : Option (List Doc))
    (reindex_all : List Doc → Bool × List SinkCall × Nat)
    (file_path : String) (t0 t1 : Nat) : IndexProgressInfo × List SinkCall :=
  let info0 : IndexProgressInfo :=
    { status := .in_progress, file_path := some file_path, start_time := some t0 }
  if !file_exists then
    ({ info0 with
        status := .failed
        error_message := some ("Ошибка индексации: Файл не найден: " ++ file_path)
        end_time := some t1 }, [])
  else
    match parse_result with
    | none =>
      ({ info0 with
          status := .failed
          error_message := some "Ошибка индексации: Не удалось распарсить файл"
          end_time := some t1 }, [])
    | some docs =>
      if docs.isEmpty then
        ({ info0 with
            status := .completed
            end_time := some t1
            total_documents := 0
            indexed_documents := 0 }, [])
      else
        let (ok, calls, cb_indexed) := reindex_all docs
        if ok then
          ({ info0 with
              status := .completed
              end_time := some t1
              total_documents := docs.length
              indexed_documents := docs.length }, calls)
        else
          ({ info0 with
              status := .failed
              error_message := some "Ошибка индексации: Индексация вернула False"
              end_time := some t1
              total_documents := docs.length
              indexed_documents := cb_indexed }, calls)

/-! ### Streaming pipeline (`StreamingIndexer.stream_index_archive`,
full_indexing.py)

Each chunk of HTML entries is abstracted to the document list its parse
stage produced, so the loop input is `chunks : List (List Doc)`.  The
destination sink is the oracle `sinkOk`, the boolean result of
`indexer.index_documentation` for a chunk's documents. -/

/-- The per-chunk loop of `stream_index_archive`.  Returns
`(handed, dest, total_indexed, ok)`: the chunk document lists handed to the
sink in order, the destination contents (documents of successfully written
chunks), the accumulated `total_indexed` counter, and whether the loop ran
to completion without a sink failure.  A chunk with no documents is skipped
with a warning; on the first sink failure the loop returns immediately. -/
def streamLoop (sinkOk : List Doc → Bool) :
    List (List Doc) → List (List Doc) × List Doc × Nat × Bool
  | [] => ([], [], 0, true)
  | docs :: rest =>
    if docs.isEmpty then streamLoop sinkOk rest
    else if sinkOk docs then
      let (handed, dest, n, ok) := streamLoop sinkOk rest
      (docs :: handed, docs ++ dest, docs.length + n, ok)
    else ([docs], [], 0, false)

/-- `stream_index_archive` from the chunk loop onward: `connected` is the
`es_client.connect()` result, `reported_count` the value of
`es_client.get_documents_count()` after the final refresh.  Returns the
run's boolean result and whether the final index refresh was requested.
On full loop success the source prints a mismatch warning when
`total_indexed != indexed_docs_count` and returns
`total_indexed == indexed_docs_count`. -/
def stream_index_archive (connected : Bool) (chunks : List (List Doc))
    (sinkOk : List Doc → Bool) (reported_count : Nat) : Bool × Bool :=
  if !connected then (false, false)
  else
    let (_, _, total_indexed, ok) := streamLoop sinkOk chunks
    if !ok then (false, false)
    else (total_indexed == reported_count, true)

/-! ### Retry policies (src/core/retry.py)

The decorators configure the external `tenacity` library with
`stop_after_attempt`, `retry_if_exception_type` and `reraise=True`.  The
attempt loop below models tenacity's documented semantics for that
configuration: call the wrapped function; return its value on success;
re-raise immediately on a non-retryable error; on a retryable error retry
until the configured attempt count is exhausted, then re-raise the last
error unchanged.  The wrapped function is modelled as
`f : Nat → Except ESError α`, the outcome of its k-th invocation. -/

/-- The exception classes the policies distinguish. -/
inductive ESError
  | connection
  | transport
  | other
  deriving Repr, DecidableEq

/-- `retry_if_exception_type(ConnectionError)`. -/
def conn_retryable : ESError → Bool
  | .connection => true
  | _ => false

/-- `retry_if_exception_type((ConnectionError, TransportError))`. -/
def transient_retryable : ESError → Bool
  | .connection => true
  | .transport => true
  | .other => false

/-- Attempt loop: `k` is the index of the next call to `f`, the last
argument the number of attempts still allowed.  Returns the number of calls
made together with the final outcome.  (`stop_after_attempt` is only ever
configured with a positive count; the `0` case is a dead branch.) -/
def tenacityRetryAux {α : Type} (retryable : ESError → Bool)
    (f : Nat → Except ESError α) (k : Nat) : Nat → Nat × Except ESError α
  | 0 => (0, f k)
  | 1 => (1, f k)
  | n + 2 =>
    match f k with
    | .ok a => (1, .ok a)
    | .error e =>
      if retryable e then
        let (c, r) := tenacityRetryAux retryable f (k + 1) (n + 1)
        (c + 1, r)
      else (1, .error e)

/-- A `@retry(stop=stop_after_attempt(max_attempts), retry=..., reraise=True)`
wrapped call. -/
def tenacityRetry {α : Type} (max_attempts : Nat) (retryable : ESError → Bool)
    (f : Nat → Except ESError α) : Nat × Except ESError α :=
  tenacityRetryAux retryable f 0 max_attempts

/-- `retry_on_connection_error`: retry `ConnectionError` only, up to
`settings.elasticsearch.max_retries` attempts (config default 3). -/
def retry_on_connection_error {α : Type} (max_retries : Nat)
    (f : Nat → Except ESError α) : Nat × Except ESError α :=
  tenacityRetry max_retries conn_retryable f

/-- `retry_on_transient_error`: retry `ConnectionError` and `TransportError`,
up to the hard-coded 3 attempts. -/
def retry_on_transient_error {α : Type}
    (f : Nat → Except ESError α) : Nat × Except ESError α :=
  tenacityRetry 3 transient_retryable f

/-! ### Observed status snapshots of one manager run

The sequence of `(indexed_documents, total_documents)` pairs observable
through `get_status` during one non-empty `_do_indexing` run: the counters
right after the `IN_PROGRESS` reset (`(0, 0)` — the fresh record's
defaults), right after `total_documents` is set (`(0, total)`), after each
`_update_progress` callback, and after the final success write
(`(total, total)`); a failing run leaves the counters at their last
callback value. -/
def runSnapshots (docs : List Doc) (batch_size : Nat) (batchOk : Nat → Bool) :
    List (Nat × Nat) :=
  let total := docs.length
  (0, 0) :: (0, total) ::
    (progressTrace docs batch_size batchOk ++
      (if index_documentation_result docs batch_size batchOk then [(total, total)] else []))

/-! ## Helper lemmas -/

lemma mem_matchPositionsFrom {data pat : List Nat} {start i : Nat} :
    i ∈ matchPositionsFrom data pat start ↔
      start ≤ i ∧ i < data.length ∧ matchesAt data pat i = true := by
  simp only [matchPositionsFrom, List.mem_filter, List.mem_range, Bool.and_eq_true,
    decide_eq_true_eq]
  tauto

lemma matchesAt_eq_false_of_le {data pat : List Nat} (hpat : pat ≠ [])
    {i : Nat} (hi : data.length ≤ i) : matchesAt data pat i = false := by
  have hdrop : data.drop i = [] := List.drop_eq_nil_of_le hi
  cases pat with
  | nil => exact absurd rfl hpat
  | cons x xs => simp [matchesAt, hdrop, List.isPrefixOf]

lemma matchPositionsFrom_pairwise (data pat : List Nat) (start : Nat) :
    (matchPositionsFrom data pat start).Pairwise (· < ·) :=
  List.Pairwise.sublist (List.filter_sublist _) (List.pairwise_lt_range _)

lemma matchPositionsFrom_eq_nil_iff {data pat : List Nat} (hpat : pat ≠ [])
    {start : Nat} :
    matchPositionsFrom data pat start = [] ↔
      ∀ i, start ≤ i → matchesAt data pat i = false := by
  constructor
  · intro h i hi
    by_cases hlen : i < data.length
    · rcases Bool.eq_false_or_eq_true (matchesAt data pat i) with hm | hm
      · exfalso
        have : i ∈ matchPositionsFrom data pat start :=
          mem_matchPositionsFrom.mpr ⟨hi, hlen, hm⟩
        simp [h] at this
      · exact hm
    · exact matchesAt_eq_false_of_le hpat (Nat.le_of_not_lt hlen)
  · intro h
    rw [List.eq_nil_iff_forall_not_mem]
    intro i hi
    obtain ⟨h1, _, h3⟩ := mem_matchPositionsFrom.mp hi
    rw [h i h1] at h3
    exact Bool.false_ne_true h3

lemma getLast?_eq_of_max {p : Nat} : ∀ {l : List Nat}, l.Pairwise (· < ·) →
    p ∈ l → (∀ q ∈ l, q ≤ p) → l.getLast? = some p
  | [], _, hp, _ => by simp at hp
  | [x], _, hp, _ => by
    simp only [List.mem_singleton] at hp
    simp [hp]
  | x :: y :: ys, hs, hp, hmax => by
    rw [List.getLast?_cons_cons]
    have hsx : ∀ q ∈ y :: ys, x < q := (List.pairwise_cons.mp hs).1
    have hpx : p ∈ y :: ys := by
      rcases List.mem_cons.mp hp with hp | hp
      · exfalso
        have hy : x < y := hsx y (List.mem_cons_self _ _)
        have hyp : y ≤ p := hmax y (List.mem_cons_of_mem _ (List.mem_cons_self _ _))
        omega
      · exact hp
    exact getLast?_eq_of_max (List.pairwise_cons.mp hs).2 hpx
      (fun q hq => hmax q (List.mem_cons_of_mem _ hq))

lemma bytesRfind_eq_of_max {data pat : List Nat} {start p : Nat}
    (hp : p ∈ matchPositionsFrom data pat start)
    (hmax : ∀ q ∈ matchPositionsFrom data pat start, q ≤ p) :
    bytesRfind data pat start = (p : Int) := by
  unfold bytesRfind
  rw [getLast?_eq_of_max (matchPositionsFrom_pairwise data pat start) hp hmax]

lemma chunk_list_flatten {α : Type} (lst : List α) (n : Nat) :
    n ≠ 0 → (chunk_list lst n).flatten = lst := by
  induction lst, n using chunk_list.induct with
  | case1 lst n h =>
    intro hn
    simp only [Bool.or_eq_true, beq_iff_eq, List.isEmpty_iff] at h
    rcases h with h | h
    · exact absurd h hn
    · subst h
      rw [chunk_list]
      simp
  | case2 lst n h ih =>
    intro hn
    rw [chunk_list, if_neg h, List.flatten_cons, ih hn]
    exact List.take_append_drop n lst

lemma chunk_list_ne_nil {α : Type} (lst : List α) (n : Nat) :
    ∀ c ∈ chunk_list lst n, c ≠ [] := by
  induction lst, n using chunk_list.induct with
  | case1 lst n h =>
    rw [chunk_list, if_pos h]
    simp
  | case2 lst n h ih =>
    rw [chunk_list, if_neg h]
    intro c hc
    simp only [Bool.or_eq_true, beq_iff_eq, List.isEmpty_iff, not_or] at h
    rcases List.mem_cons.mp hc with hc | hc
    · subst hc
      simp only [Ne, List.take_eq_nil_iff, not_or]
      exact ⟨h.1, h.2⟩
    · exact ih c hc

lemma chunk_list_length_le {α : Type} (lst : List α) (n : Nat) :
    ∀ c ∈ chunk_list lst n, c.length ≤ n := by
  induction lst, n using chunk_list.induct with
  | case1 lst n h =>
    rw [chunk_list, if_pos h]
    simp
  | case2 lst n h ih =>
    rw [chunk_list, if_neg h]
    intro c hc
    rcases List.mem_cons.mp hc with hc | hc
    · subst hc
      rw [List.length_take]
      exact min_le_left _ _
    · exact ih c hc

lemma chunk_list_dropLast_length {α : Type} (lst : List α) (n : Nat) :
    ∀ c ∈ (chunk_list lst n).dropLast, c.length = n := by
  induction lst, n using chunk_list.induct with
  | case1 lst n h =>
    rw [chunk_list, if_pos h]
    simp
  | case2 lst n h ih =>
    rw [chunk_list, if_neg h]
    simp only [Bool.or_eq_true, beq_iff_eq, List.isEmpty_iff, not_or] at h
    by_cases hd : lst.drop n = []
    · rw [hd, chunk_list]
      simp
    · have htail : chunk_list (lst.drop n) n ≠ [] := by
        rw [chunk_list]
        simp [h.1, hd]
      rw [List.dropLast_cons_of_ne_nil htail]
      intro c hc
      rcases List.mem_cons.mp hc with hc | hc
      · subst hc
        rw [List.length_take]
        have : n < lst.length := by
          rcases Nat.lt_or_ge n lst.length with hlt | hge
          · exact hlt
          · exact absurd (List.drop_eq_nil_iff.mpr hge) hd
        exact min_eq_left (Nat.le_of_lt this)
      · exact ih c hc

lemma sumLens_chunk_list_le (docs : List Doc) (n : Nat) :
    sumLens (chunk_list docs n) ≤ docs.length := by
  by_cases hn : n = 0
  · subst hn
    rw [chunk_list]
    simp [sumLens]
  · have heq : sumLens (chunk_list docs n) = docs.length := by
      unfold sumLens
      rw [← List.length_flatten, chunk_list_flatten docs n hn]
    exact le_of_eq heq

lemma sumLens_cons {α : Type} (b : List α) (rest : List (List α)) :
    sumLens (b :: rest) = b.length + sumLens rest := by
  simp [sumLens]

lemma bytesFind_spec {data pat : List Nat} {start p : Nat}
    (h : bytesFind data pat start = (p : Int)) :
    start ≤ p ∧ matchesAt data pat p = true ∧
      ∀ j, start ≤ j → j < p → matchesAt data pat j = false := by
  unfold bytesFind at h
  rcases hpos : matchPositionsFrom data pat start with _ | ⟨i, rest⟩
  · rw [hpos] at h
    have h' : (-1 : Int) = (p : Int) := h
    omega
  · rw [hpos] at h
    have h' : (i : Int) = (p : Int) := h
    have hip : i = p := by exact_mod_cast h'
    subst hip
    have hmem : i ∈ matchPositionsFrom data pat start := by
      rw [hpos]
      exact List.mem_cons_self _ _
    obtain ⟨h1, h2, h3⟩ := mem_matchPositionsFrom.mp hmem
    refine ⟨h1, h3, ?_⟩
    intro j hj1 hj2
    rcases Bool.eq_false_or_eq_true (matchesAt data pat j) with hm | hm
    · exfalso
      have hjlen : j < data.length := Nat.lt_trans hj2 h2
      have hjmem : j ∈ matchPositionsFrom data pat start :=
        mem_matchPositionsFrom.mpr ⟨hj1, hjlen, hm⟩
      have hpw := matchPositionsFrom_pairwise data pat start
      rw [hpos] at hjmem hpw
      rcases List.mem_cons.mp hjmem with hj | hj
      · omega
      · have := (List.pairwise_cons.mp hpw).1 j hj
        omega
    · exact hm

lemma traceAux_mem (total : Nat) (ok : Nat → Bool) :
    ∀ (rest : List (List Doc)) (i indexed : Nat),
      ∀ p ∈ traceAux total ok rest i indexed,
        indexed ≤ p.1 ∧ p.1 ≤ indexed + sumLens rest ∧ p.2 = total := by
  intro rest
  induction rest with
  | nil =>
    intro i indexed p hp
    simp [traceAux] at hp
  | cons b rest ih =>
    intro i indexed p hp
    rw [traceAux] at hp
    by_cases hok : ok i = true
    · rw [if_pos hok] at hp
      rcases List.mem_cons.mp hp with hp | hp
      · subst hp
        refine ⟨Nat.le_add_right _ _, ?_, rfl⟩
        rw [sumLens_cons]
        omega
      · obtain ⟨h1, h2, h3⟩ := ih (i + 1) (indexed + b.length) p hp
        refine ⟨by omega, ?_, h3⟩
        rw [sumLens_cons]
        omega
    · rw [if_neg hok] at hp
      obtain ⟨h1, h2, h3⟩ := ih (i + 1) indexed p hp
      refine ⟨h1, ?_, h3⟩
      rw [sumLens_cons]
      omega

/-- Pointwise order on progress pairs: both counters are non-decreasing. -/
def progressLE (p q : Nat × Nat) : Prop :=
  p.1 ≤ q.1 ∧ p.2 ≤ q.2

lemma traceAux_chain (total : Nat) (ok : Nat → Bool) :
    ∀ (rest : List (List Doc)) (i indexed : Nat),
      List.Chain' progressLE (traceAux total ok rest i indexed) := by
  intro rest
  induction rest with
  | nil =>
    intro i indexed
    simp [traceAux]
  | cons b rest ih =>
    intro i indexed
    rw [traceAux]
    by_cases hok : ok i = true
    · rw [if_pos hok]
      refine List.Chain'.cons' (ih (i + 1) (indexed + b.length)) ?_
      intro y hy
      obtain ⟨h1, _, h3⟩ :=
        traceAux_mem total ok rest (i + 1) (indexed + b.length) y (List.mem_of_mem_head? hy)
      exact ⟨h1, by rw [h3]⟩
    · rw [if_neg hok]
      exact ih (i + 1) indexed

lemma streamLoop_fail (sinkOk : List Doc → Bool) {c : List Doc} (hc : c ≠ [])
    (hfail : sinkOk c = false) :
    ∀ (pre : List (List Doc)), (∀ d ∈ pre, d = [] ∨ sinkOk d = true) →
      ∀ post, streamLoop sinkOk (pre ++ c :: post) =
        (pre.filter (fun d => !d.isEmpty) ++ [c],
         (pre.filter (fun d => !d.isEmpty)).flatten,
         sumLens (pre.filter (fun d => !d.isEmpty)),
         false) := by
  intro pre
  induction pre with
  | nil =>
    intro _ post
    simp only [List.nil_append]
    rw [streamLoop]
    have hce : c.isEmpty = false := by
      simp [List.isEmpty_iff, hc]
    rw [hce]
    simp [hfail, sumLens]
  | cons d pre ih =>
    intro hpre post
    have hd := hpre d (List.mem_cons_self _ _)
    have hpre' : ∀ x ∈ pre, x = [] ∨ sinkOk x = true :=
      fun x hx => hpre x (List.mem_cons_of_mem _ hx)
    rcases hd with hd | hd
    · subst hd
      simp only [List.cons_append]
      rw [streamLoop]
      simp only [List.isEmpty_nil, if_true]
      rw [ih hpre' post]
      simp
    · by_cases hde : d = []
      · subst hde
        simp only [List.cons_append]
        rw [streamLoop]
        simp only [List.isEmpty_nil, if_true]
        rw [ih hpre' post]
        simp
      · have hdne : d.isEmpty = false := by simp [List.isEmpty_iff, hde]
        simp only [List.cons_append]
        rw [streamLoop, hdne]
        simp only [Bool.false_eq_true, if_false, hd, if_true]
        rw [ih hpre' post]
        simp only [List.filter_cons, hdne, Bool.not_false, if_true]
        rw [List.flatten_cons, sumLens_cons]
        simp

lemma tenacityRetryAux_all_fail {α : Type} (retryable : ESError → Bool)
    (errs : Nat → ESError) (h : ∀ j, retryable (errs j) = true) :
    ∀ (n k : Nat), 1 ≤ n →
      tenacityRetryAux retryable (fun j => (.error (errs j) : Except ESError α)) k n
        = (n, .error (errs (k + n - 1))) := by
  intro n
  induction n with
  | zero =>
    intro k h1
    omega
  | succ m ih =>
    intro k _
    cases m with
    | zero => simp [tenacityRetryAux]
    | succ m' =>
      rw [show m' + 1 + 1 = m' + 2 from rfl, tenacityRetryAux]
      simp only [h k, if_true]
      rw [ih (k + 1) (by omega)]
      have hidx : k + 1 + (m' + 1) - 1 = k + (m' + 2) - 1 := by omega
      have hcnt : m' + 1 + 1 = m' + 2 := by omega
      rw [hidx, hcnt]

lemma tenacityRetryAux_nonretryable {α : Type} (retryable : ESError → Bool)
    {e : ESError} (he : retryable e = false) (f : Nat → Except ESError α)
    (k : Nat) (hf : f k = .error e) :
    ∀ n, 1 ≤ n → tenacityRetryAux retryable f k n = (1, .error e) := by
  intro n
  cases n with
  | zero => omega
  | succ m =>
    intro _
    cases m with
    | zero => simp [tenacityRetryAux, hf]
    | succ m' =>
      rw [show m' + 1 + 1 = m' + 2 from rfl, tenacityRetryAux, hf]
      simp [he]

lemma tenacityRetryAux_fail_twice {α : Type} (v : α) :
    ∀ (s : Nat),
      tenacityRetryAux conn_retryable
        (fun k => if k < 2 then .error .connection else .ok v) 2 (s + 1) = (1, .ok v) := by
  intro s
  cases s with
  | zero => simp [tenacityRetryAux]
  | succ s' =>
    rw [show s' + 1 + 1 = s' + 2 from rfl, tenacityRetryAux]
    norm_num

lemma tenacityRetry_fail_twice {α : Type} (v : α) {m : Nat} (hm : 3 ≤ m) :
    tenacityRetry m conn_retryable
      (fun k => if k < 2 then .error .connection else .ok v) = (3, .ok v) := by
  obtain ⟨s, rfl⟩ : ∃ s, m = s + 3 := ⟨m - 3, by omega⟩
  show tenacityRetryAux _ _ 0 (s + 3) = _
  rw [show s + 3 = s + 1 + 2 from by omega, tenacityRetryAux]
  norm_num [conn_retryable]
  rw [show s + 1 + 1 = s + 2 from rfl, tenacityRetryAux]
  norm_num [conn_retryable]
  rw [tenacityRetryAux_fail_twice v s]
  exact ⟨rfl, rfl⟩

/-! ## Claim theorems -/

/-- C10: for every list and every chunk size greater than 0, `chunk_list`
partitions the list: concatenating the produced chunks in order yields
exactly the original list, every chunk is non-empty, every chunk except
possibly the last has length exactly the chunk size, and every chunk (in
particular the last) has length at most the chunk size. -/
theorem C10_chunk_list_partition {α : Type} (lst : List α) (n : Nat) (hn : 0 < n) :
    (chunk_list lst n).flatten = lst
  ∧ (∀ c ∈ chunk_list lst n, c ≠ [])
  ∧ (∀ c ∈ (chunk_list lst n).dropLast, c.length = n)
  ∧ (∀ c ∈ chunk_list lst n, c.length ≤ n) :=
  ⟨chunk_list_flatten lst n (Nat.pos_iff_ne_zero.mp hn),
   chunk_list_ne_nil lst n, chunk_list_dropLast_length lst n,
   chunk_list_length_le lst n⟩

/-- Concrete instance of `C10_chunk_list_partition` at list `[1,2,3,4,5]`
and chunk size 2. -/
theorem C10_chunk_list_partition_witness :
    (chunk_list [1, 2, 3, 4, 5] 2).flatten = [1, 2, 3, 4, 5] :=
  (C10_chunk_list_partition [1, 2, 3, 4, 5] 2 (by decide)).1

/-- C2: at most one job may report IN_PROGRESS at any time — for every
manager state in which a job task exists and has not finished
(`is_indexing`), `start_indexing` starts no second job and leaves the whole
state, in particular the original job's status record, unchanged. -/
theorem C2_at_most_one_job (s : ManagerState) (t : TaskHandle)
    (h : is_indexing s = true) :
    start_indexing s t = s ∧ get_status (start_indexing s t) = get_status s := by
  have h1 : start_indexing s t = s := by simp [start_indexing, h]
  exact ⟨h1, by rw [h1]⟩

/-- Concrete instance of `C2_at_most_one_job`: a running task rejects a
second start and the state is untouched. -/
theorem C2_at_most_one_job_witness :
    start_indexing ⟨some ⟨false⟩, { status := .in_progress }⟩ ⟨false⟩ =
      ⟨some ⟨false⟩, { status := .in_progress }⟩ :=
  (C2_at_most_one_job _ _ (by decide)).1

/-- C3: batch extraction returns a map containing exactly the requested
members whose content could be read — missing or unreadable paths are
omitted — and with no open archive it returns the empty map (the source
function returns normally on every path: per-member errors are caught, so
it never raises for individual members, and no `ExtractionError` raise
exists outside the archive-not-open situation). -/
theorem C3_extract_batch_exact (zf : List (String × Option (List Nat)))
    (filenames : List String) :
    (∀ fn c, ((fn, c) ∈ extract_batch_files (some zf) filenames ↔
        fn ∈ filenames ∧ zf_read zf fn = some c))
  ∧ extract_batch_files none filenames = [] := by
  constructor
  · intro fn c
    simp only [extract_batch_files, List.mem_filterMap, Option.map_eq_some']
    constructor
    · rintro ⟨a, ha, b, hb, heq⟩
      cases heq
      exact ⟨ha, hb⟩
    · rintro ⟨h1, h2⟩
      exact ⟨fn, h1, c, h2, rfl⟩
  · rfl

/-- C4 counterexample: the 22-byte input consisting of a bare end-of-central-
directory record (a valid empty ZIP) contains no occurrence of the 4-byte
ZIP local-file-header signature, yet the decoder does not fail with the
"no archive signature found" error — it returns an entry list, because the
source scans for the 2-byte `ZIP_SIGNATURE = b'PK'` instead.  The oracle
`fun _ => some []` reflects `zipfile` accepting the empty ZIP. -/
theorem C4_counterexample :
    (∀ i, matchesAt (ZIP_EOCD_SIGNATURE ++ List.replicate 18 0)
        LOCAL_FILE_HEADER_SIGNATURE i = false)
  ∧ open_hbk_as_zip (fun _ => some []) (ZIP_EOCD_SIGNATURE ++ List.replicate 18 0)
      = .ok [] := by
  constructor
  · intro i
    rcases Nat.lt_or_ge i 22 with hi | hi
    · have hb : ∀ j, j < 22 → matchesAt (ZIP_EOCD_SIGNATURE ++ List.replicate 18 0)
          LOCAL_FILE_HEADER_SIGNATURE j = false := by decide
      exact hb i hi
    · have hlen : (ZIP_EOCD_SIGNATURE ++ List.replicate 18 0).length = 22 := by decide
      exact matchesAt_eq_false_of_le (by decide) (by rw [hlen]; exact hi)
  · rfl

/-- C4 (amended): the decoder locates the embedded payload by finding the
first occurrence of the two-byte signature `b'PK'` (`ZIP_SIGNATURE`), and it
fails with the "no archive signature found" `DecodeError` exactly for the
inputs in which that two-byte sequence never occurs. -/
theorem C4_signature_scan (zipOpen : List Nat → Option (List HBKEntry))
    (data : List Nat) :
    (open_hbk_as_zip zipOpen data = .error .noSignature ↔
      ∀ i, matchesAt data ZIP_SIGNATURE i = false)
  ∧ ∀ p : Nat, find_zip_offset data = (p : Int) →
      matchesAt data ZIP_SIGNATURE p = true ∧
        ∀ j, j < p → matchesAt data ZIP_SIGNATURE j = false := by
  constructor
  · constructor
    · intro h
      by_cases hneg : find_zip_offset data < 0
      · have hnil : matchPositionsFrom data ZIP_SIGNATURE 0 = [] := by
          unfold find_zip_offset bytesFind at hneg
          rcases hpos : matchPositionsFrom data ZIP_SIGNATURE 0 with _ | ⟨i, rest⟩
          · rfl
          · rw [hpos] at hneg
            have : ((i : Int) < 0) := hneg
            omega
        intro i
        exact (matchPositionsFrom_eq_nil_iff (by decide)).mp hnil i (Nat.zero_le i)
      · exfalso
        unfold open_hbk_as_zip at h
        rw [if_neg hneg] at h
        cases htry : try_open_zip zipOpen data (find_zip_offset data).toNat with
        | some entries =>
          rw [htry] at h
          simp at h
        | none =>
          rw [htry] at h
          simp at h
    · intro h
      have hnil : matchPositionsFrom data ZIP_SIGNATURE 0 = [] :=
        (matchPositionsFrom_eq_nil_iff (by decide)).mpr (fun i _ => h i)
      have hfind : find_zip_offset data = -1 := by
        unfold find_zip_offset bytesFind
        rw [hnil]
      unfold open_hbk_as_zip
      rw [hfind]
      rfl
  · intro p hp
    obtain ⟨_, h2, h3⟩ := bytesFind_spec hp
    exact ⟨h2, fun j hj => h3 j (Nat.zero_le j) hj⟩

/-- C5: when the last EOCD-signature occurrence within the backward-scan
window (`eocd_search_start`, i.e. the final `ZIP_EOCD_MIN_SIZE + 65535`
bytes of the file, clamped to the signature position) is `p` and the
2-byte comment-length field passes its bounds check, `find_zip_end` returns
`p + 22 + comment_length` with the comment length read little-endian from
offsets `p+20, p+21`, and decode strategy A opens exactly the byte range
`[zip_start, p + 22 + comment_length)`. -/
theorem C5_find_zip_end_eocd (data : List Nat) (zip_start : Nat) (p : Nat)
    (hp : p ∈ matchPositionsFrom data ZIP_EOCD_SIGNATURE (eocd_search_start data zip_start))
    (hmax : ∀ q ∈ matchPositionsFrom data ZIP_EOCD_SIGNATURE (eocd_search_start data zip_start),
      q ≤ p)
    (hb : p + 20 + 2 ≤ data.length) :
    find_zip_end data zip_start = p + ZIP_EOCD_MIN_SIZE + readLE16 data (p + 20)
  ∧ readLE16 data (p + 20) = data.getD (p + 20) 0 + 256 * data.getD (p + 21) 0
  ∧ ∀ (zipOpen : List Nat → Option (List HBKEntry)) (entries : List HBKEntry),
      zipOpen (slice data zip_start (p + ZIP_EOCD_MIN_SIZE + readLE16 data (p + 20)))
          = some entries →
      try_open_zip zipOpen data zip_start = some entries := by
  have hr : bytesRfind data ZIP_EOCD_SIGNATURE (eocd_search_start data zip_start) = (p : Int) :=
    bytesRfind_eq_of_max hp hmax
  have hfz : find_zip_end data zip_start = p + ZIP_EOCD_MIN_SIZE + readLE16 data (p + 20) := by
    unfold find_zip_end
    rw [hr]
    rw [if_neg (by omega : ¬((p : Int) < 0))]
    simp only [Int.toNat_natCast]
    rw [if_pos hb]
  refine ⟨hfz, rfl, ?_⟩
  intro zipOpen entries hopen
  unfold try_open_zip
  rw [hfz, hopen]

/-- Concrete instance of `C5_find_zip_end_eocd`: a 40-byte file with vendor
header `[0,0]`, a local-file header at offset 2, an EOCD record at offset 16
whose comment-length field is 2, and 2 trailer bytes: the computed end is
`16 + 22 + 2 = 40`. -/
theorem C5_find_zip_end_eocd_witness :
    find_zip_end ([0, 0] ++ LOCAL_FILE_HEADER_SIGNATURE ++ List.replicate 10 7 ++
        ZIP_EOCD_SIGNATURE ++ List.replicate 16 0 ++ [2, 0] ++ [9, 9]) 2 = 40 :=
  (C5_find_zip_end_eocd _ 2 16 (by decide) (by decide) (by decide)).1

/-- C7: at every observed status snapshot during a run the indexed counter
is at most the total counter, the snapshot sequence is monotonically
non-decreasing in both counters, and each `_update_progress` invocation
writes exactly the callback's `(indexed, total)` pair into the status
record. -/
theorem C7_progress_invariant (docs : List Doc) (batch_size : Nat)
    (batchOk : Nat → Bool) :
    (∀ p ∈ runSnapshots docs batch_size batchOk, p.1 ≤ p.2)
  ∧ List.Chain' progressLE (runSnapshots docs batch_size batchOk)
  ∧ ∀ (info : IndexProgressInfo) (indexed total : Nat),
      (update_progress info indexed total).indexed_documents = indexed ∧
      (update_progress info indexed total).total_documents = total := by
  have hmem := traceAux_mem docs.length batchOk (chunk_list docs batch_size) 0 0
  have hsum := sumLens_chunk_list_le docs batch_size
  have htrmem : ∀ p ∈ progressTrace docs batch_size batchOk,
      p.1 ≤ docs.length ∧ p.2 = docs.length := by
    intro p hp
    obtain ⟨_, h2, h3⟩ := hmem p hp
    exact ⟨by omega, h3⟩
  have htailmem : ∀ p ∈ (if index_documentation_result docs batch_size batchOk
      then [(docs.length, docs.length)] else ([] : List (Nat × Nat))),
      p = (docs.length, docs.length) := by
    intro p hp
    by_cases hres : index_documentation_result docs batch_size batchOk
    · rw [if_pos hres] at hp
      simpa using hp
    · rw [if_neg hres] at hp
      simp at hp
  refine ⟨?_, ?_, fun info indexed total => ⟨rfl, rfl⟩⟩
  · intro p hp
    rcases List.mem_cons.mp hp with hp | hp
    · subst hp
      exact Nat.le_refl 0
    rcases List.mem_cons.mp hp with hp | hp
    · subst hp
      exact Nat.zero_le _
    rcases List.mem_append.mp hp with hp | hp
    · obtain ⟨h1, h2⟩ := htrmem p hp
      omega
    · rw [htailmem p hp]
  · refine List.Chain'.cons' (List.Chain'.cons' ?_ ?_) ?_
    · refine List.Chain'.append (traceAux_chain docs.length batchOk _ 0 0) ?_ ?_
      · by_cases hres : index_documentation_result docs batch_size batchOk
        · rw [if_pos hres]
          exact List.chain'_singleton _
        · rw [if_neg hres]
          exact List.chain'_nil
      · intro x hx y hy
        obtain ⟨h1, h2⟩ := htrmem x (List.mem_of_mem_getLast? hx)
        rw [htailmem y (List.mem_of_mem_head? hy)]
        exact ⟨h1, by omega⟩
    · intro y hy
      rcases List.mem_append.mp (List.mem_of_mem_head? hy) with hy' | hy'
      · obtain ⟨_, h2⟩ := htrmem y hy'
        exact ⟨Nat.zero_le _, by omega⟩
      · rw [htailmem y hy']
        exact ⟨Nat.zero_le _, Nat.le_refl _⟩
    · intro y hy
      simp only [List.head?_cons, Option.mem_def, Option.some.injEq] at hy
      subst hy
      exact ⟨Nat.le_refl 0, Nat.zero_le _⟩

/-- C8: a run whose decode yields zero documentation records ends with
status COMPLETED (not FAILED), both counters equal to 0, and no call issued
to the destination index sink, whatever the sink oracle would do. -/
theorem C8_zero_records_completed (reindex : List Doc → Bool × List SinkCall × Nat)
    (fp : String) (t0 t1 : Nat) :
    do_indexing true (some []) reindex fp t0 t1 =
      ({ status := .completed
         total_documents := 0
         indexed_documents := 0
         start_time := some t0
         end_time := some t1
         error_message := none
         file_path := some fp }, []) := rfl

/-- C6: a destination-sink failure for a chunk aborts the run — when every
chunk before `c` is empty (skipped) or accepted by the sink, `c` is
non-empty and the sink write for `c` fails, the loop hands the sink exactly
the non-empty chunks up to and including `c` (no later chunk), the
destination keeps the documents of the earlier successful chunks with no
rollback, and the run returns failure. -/
theorem C6_sink_failure_aborts (sinkOk : List Doc → Bool) (pre : List (List Doc))
    (c : List Doc) (post : List (List Doc)) (reported : Nat)
    (hpre : ∀ d ∈ pre, d = [] ∨ sinkOk d = true) (hc : c ≠ [])
    (hfail : sinkOk c = false) :
    streamLoop sinkOk (pre ++ c :: post) =
      (pre.filter (fun d => !d.isEmpty) ++ [c],
       (pre.filter (fun d => !d.isEmpty)).flatten,
       sumLens (pre.filter (fun d => !d.isEmpty)), false)
  ∧ stream_index_archive true (pre ++ c :: post) sinkOk reported = (false, false) := by
  have h1 := streamLoop_fail sinkOk hc hfail pre hpre post
  refine ⟨h1, ?_⟩
  unfold stream_index_archive
  rw [h1]
  simp

/-- Concrete instance of `C6_sink_failure_aborts`: four chunks, the sink
rejects the third non-trivial write; the fourth chunk is never handed over
and the run fails. -/
theorem C6_sink_failure_aborts_witness :
    stream_index_archive true ([[⟨1⟩], []] ++ [⟨2⟩, ⟨3⟩] :: [[⟨4⟩]])
      (fun c => c.length != 2) 5 = (false, false) :=
  (C6_sink_failure_aborts (fun c => c.length != 2) [[⟨1⟩], []] [⟨2⟩, ⟨3⟩] [[⟨4⟩]] 5
    (by decide) (by decide) (by decide)).2

/-- C1 counterexample: a run of one chunk of one document in which every
sink write succeeds — with destination-reported count 1 the run returns
success, with destination-reported count 0 the same run returns failure.
The run's success result therefore does depend on whether the
produced-record count equals the destination-reported count, refuting the
claim that it does not. -/
theorem C1_counterexample :
    (streamLoop (fun _ => true) [[⟨0⟩]]).2.2.2 = true
  ∧ stream_index_archive true [[⟨0⟩]] (fun _ => true) 1 = (true, true)
  ∧ stream_index_archive true [[⟨0⟩]] (fun _ => true) 0 = (false, true) :=
  ⟨rfl, rfl, rfl⟩

/-- C1 (amended): after all chunks succeed, the pipeline requests the final
index refresh and compares the produced-record count against the
destination-reported count; a mismatch is surfaced as the final integrity
warning and makes the run return failure — the run's success result is
exactly whether the two counts are equal. -/
theorem C1_success_iff_counts_match (chunks : List (List Doc))
    (sinkOk : List Doc → Bool) (reported : Nat)
    (h : (streamLoop sinkOk chunks).2.2.2 = true) :
    stream_index_archive true chunks sinkOk reported =
      (((streamLoop sinkOk chunks).2.2.1 == reported), true) := by
  unfold stream_index_archive
  rcases e : streamLoop sinkOk chunks with ⟨a, b, tot, ok⟩
  rw [e] at h
  simp only at h
  subst h
  simp

/-- Concrete instance of `C1_success_iff_counts_match`: one successful chunk
of one document, destination reports 2 — refresh is requested and the run
result is the count comparison (false). -/
theorem C1_success_iff_counts_match_witness :
    stream_index_archive true [[⟨0⟩]] (fun _ => true) 2 = (false, true) :=
  C1_success_iff_counts_match [[⟨0⟩]] (fun _ => true) 2 rfl

/-- C9: the connection retry policy wrapping a function that raises a
retryable error twice and then succeeds calls it exactly 3 times and
returns the success value; wrapping a function whose error is not in the
retryable set, the function is called exactly once and the original error
propagates unchanged; wrapping a function that keeps raising retryable
errors, after the configured maximum attempt count the last error is
re-raised unchanged (shown for the connection policy with its configured
maximum, and for the transient policy with its hard-coded 3 attempts). -/
theorem C9_retry_policy {α : Type} (m : Nat) (hm : 3 ≤ m) (v : α)
    (e : ESError) (he : conn_retryable e = false)
    (errs : Nat → ESError) (herrs : ∀ k, conn_retryable (errs k) = true)
    (errs2 : Nat → ESError) (herrs2 : ∀ k, transient_retryable (errs2 k) = true) :
    retry_on_connection_error m (fun k => if k < 2 then .error .connection else .ok v)
        = (3, .ok v)
  ∧ retry_on_connection_error m (fun _ => (.error e : Except ESError α)) = (1, .error e)
  ∧ retry_on_connection_error m (fun k => (.error (errs k) : Except ESError α))
        = (m, .error (errs (m - 1)))
  ∧ retry_on_transient_error (fun k => (.error (errs2 k) : Except ESError α))
        = (3, .error (errs2 2)) := by
  refine ⟨tenacityRetry_fail_twice v hm, ?_, ?_, ?_⟩
  · exact tenacityRetryAux_nonretryable conn_retryable he _ 0 rfl m (by omega)
  · have h := @tenacityRetryAux_all_fail α conn_retryable errs herrs m 0 (by omega)
    rw [Nat.zero_add] at h
    exact h
  · exact @tenacityRetryAux_all_fail α transient_retryable errs2 herrs2 3 0 (by omega)

/-- Concrete instance of `C9_retry_policy` at the configured default of 3
attempts: two connection failures then success gives 3 calls and the value;
a non-retryable error propagates after 1 call; all-failing calls exhaust
the 3 attempts and re-raise the last error. -/
theorem C9_retry_policy_witness :
    retry_on_connection_error 3
        (fun k => if k < 2 then .error .connection else .ok (7 : Nat)) = (3, .ok 7)
  ∧ retry_on_connection_error 3 (fun _ => (.error .other : Except ESError Nat))
        = (1, .error .other)
  ∧ retry_on_connection_error 3 (fun _ => (.error .connection : Except ESError Nat))
        = (3, .error .connection)
  ∧ retry_on_transient_error (fun _ => (.error .transport : Except ESError Nat))
        = (3, .error .transport) :=
  C9_retry_policy 3 (by decide) 7 .other (by decide)
    (fun _ => .connection) (fun _ => rfl)
    (fun _ => .transport) (fun _ => rfl)

end HbkSpec
